import Mathlib

/-!
Verification of the reconciliation core of the Housing_Project repository
(`src/code/functions.py`): the name canonicalizer (`normalize_name`), the
fuzzy match suggester (`similarity_score`), and the identifier resolver
(`update_istat` with its inner chain follower `resolve_code`).

The Python code is shallowly embedded: pandas columns become `List String`,
the supersession dict becomes an association list with first-match lookup,
Python sets become list membership, and exceptions become `Except` errors.
-/

namespace Housing

/-! ## Identifier resolver (`update_istat`, functions.py lines 157–210) -/

/-- Dictionary lookup for the supersession map built on line 173
(`df_map.set_index(istat_old)[istat_new].to_dict()`): first matching key wins. -/
def lookupMap : List (String × String) → String → Option String
  | [], _ => none
  | p :: ps, k => if p.1 = k then some p.2 else lookupMap ps k

/-- The body of the `while` loop of `resolve_code` (lines 183–189), with
explicit fuel.  One unit of fuel permits one evaluation of the loop guard
`current in mapping and current not in visited`; when the guard passes, the
loop adds `current` to `visited` and steps to `mapping[current]`. -/
def resolveCodeAux (m : List (String × String)) : Nat → List String → String → String
  | 0, _, current => current
  | fuel + 1, visited, current =>
    match lookupMap m current with
    | none => current
    | some next =>
      if current ∈ visited then current
      else resolveCodeAux m fuel (current :: visited) next

/-- `resolve_code` (lines 183–189).  The Python loop needs no fuel; we give it
`m.length + 1`, which the termination theorem below shows is never exhausted. -/
def resolve_code (m : List (String × String)) (code : String) : String :=
  resolveCodeAux m (m.length + 1) [] code

/-- Number of map lookups (loop-guard evaluations of `current in mapping`)
performed by `resolve_code`, with the same fuel discipline as
`resolveCodeAux`. -/
def resolveCodeLookups (m : List (String × String)) : Nat → List String → String → Nat
  | 0, _, _ => 0
  | fuel + 1, visited, current =>
    match lookupMap m current with
    | none => 1
    | some next =>
      if current ∈ visited then 1
      else 1 + resolveCodeLookups m fuel (current :: visited) next

/-- Lookup count of a full `resolve_code` run. -/
def resolve_code_lookups (m : List (String × String)) (code : String) : Nat :=
  resolveCodeLookups m (m.length + 1) [] code

/-- The per-code classification performed by the `for code in unique` loop of
`update_istat` (lines 192–200): valid codes are returned unchanged, otherwise
the chain is followed and the outcome is classified as changed or suppressed.
The result triple is `(resolved, changed, suppressed)`. -/
def resolveOne (m : List (String × String)) (valid : List String) (code : String) :
    String × Bool × Bool :=
  if code ∈ valid then (code, false, false)
  else
    let final := resolve_code m code
    if final ≠ code then (final, true, false)
    else (code, false, true)

/-- Keys of the supersession map not yet visited: the quantity the loop
strictly decreases. -/
def remKeys (m : List (String × String)) (visited : List String) : Nat :=
  ((m.map Prod.fst).toFinset \ visited.toFinset).card

/-- `pandas.unique` (lines 135–136 and 177): distinct values in order of
first appearance. -/
def uniqueAux (seen : List String) : List String → List String
  | [] => []
  | a :: l => if a ∈ seen then uniqueAux seen l else a :: uniqueAux (a :: seen) l

def uniqueList (l : List String) : List String := uniqueAux [] l

/-- The resolution table `update_istat` computes for the distinct codes of
the identifier column (lines 177 and 192–200); lines 202–209 then broadcast
each record to every row holding that code. -/
def update_istat_table (codes : List String) (m : List (String × String))
    (valid : List String) : List (String × (String × Bool × Bool)) :=
  (uniqueList codes).map (fun c => (c, resolveOne m valid c))

/-! ## Name canonicalizer (`normalize_name`, functions.py lines 24–36) -/

/-- Codepoints of Python `string.punctuation`, the set removed on line 35. -/
def pyPunctCodes : List Nat :=
  [33, 34, 35, 36, 37, 38, 39, 40, 41, 42, 43, 44, 45, 46, 47,
   58, 59, 60, 61, 62, 63, 64, 91, 92, 93, 94, 95, 96, 123, 124, 125, 126]

def isPyPunct (c : Char) : Bool := pyPunctCodes.contains c.toNat

/-- Codepoints removed at either end by Python `str.strip()` (line 34). -/
def pyWhitespaceCodes : List Nat := [9, 10, 11, 12, 13, 32]

def isPyWhitespace (c : Char) : Bool := pyWhitespaceCodes.contains c.toNat

/-- `str.strip()` (line 34): drop whitespace from both ends. -/
def pyStrip (l : List Char) : List Char :=
  ((l.dropWhile isPyWhitespace).reverse.dropWhile isPyWhitespace).reverse

/-- `str.lower()` (line 33).  Python lowercasing agrees with `Char.toLower`
on the ASCII text produced by the accent-stripping step before it. -/
def pyLower (l : List Char) : List Char := l.map Char.toLower

/-- `.translate(str.maketrans('', '', string.punctuation))` (line 35). -/
def removePunct (l : List Char) : List Char := l.filter (fun c => ! isPyPunct c)

/-- Modelled from the spec: the accent-stripping library used on line 32
(`unidecode`) is third-party code, not part of this repository.  Per the spec
it maps accented characters to their closest unaccented ASCII equivalent; we
tabulate the Latin-1 letter block, which covers the spec's examples. -/
def unidecodeTable : List (Nat × List Char) :=
  [(192, ['A']), (193, ['A']), (194, ['A']), (195, ['A']), (196, ['A']),
   (197, ['A']), (198, ['A', 'E']), (199, ['C']), (200, ['E']), (201, ['E']),
   (202, ['E']), (203, ['E']), (204, ['I']), (205, ['I']), (206, ['I']),
   (207, ['I']), (209, ['N']), (210, ['O']), (211, ['O']), (212, ['O']),
   (213, ['O']), (214, ['O']), (217, ['U']), (218, ['U']), (219, ['U']),
   (220, ['U']), (221, ['Y']), (223, ['s', 's']), (224, ['a']), (225, ['a']),
   (226, ['a']), (227, ['a']), (228, ['a']), (229, ['a']), (230, ['a', 'e']),
   (231, ['c']), (232, ['e']), (233, ['e']), (234, ['e']), (235, ['e']),
   (236, ['i']), (237, ['i']), (238, ['i']), (239, ['i']), (241, ['n']),
   (242, ['o']), (243, ['o']), (244, ['o']), (245, ['o']), (246, ['o']),
   (249, ['u']), (250, ['u']), (251, ['u']), (252, ['u']), (253, ['y']),
   (255, ['y'])]

/-- Transliteration of one character: ASCII characters are unchanged,
tabulated characters expand to their ASCII equivalent, anything else is
dropped (the library's behaviour for codepoints it cannot transliterate). -/
def unidecodeChar (c : Char) : List Char :=
  if c.toNat < 128 then [c]
  else
    match unidecodeTable.find? (fun p => p.1 == c.toNat) with
    | some p => p.2
    | none => []

def pyUnidecode (l : List Char) : List Char := l.flatMap unidecodeChar

/-- `normalize_name` (lines 24–36).  The `pd.isnull` test on line 30 is
modelled by `Option`: `none` is a null/missing value; an actual string,
empty or not, is never null. -/
def normalize_name : Option String → String
  | none => ""
  | some s =>
    let n1 := pyUnidecode s.data
    let n2 := pyLower n1
    let n3 := pyStrip n2
    let n4 := removePunct n3
    String.mk n4

/-- The spec's worked example input `"Città d'Aosta!"`, spelled with explicit
codepoints for the grave accent (224) and the apostrophe (39). -/
def cittaInput : String :=
  "Citt" ++ String.mk [Char.ofNat 224] ++ " d" ++ String.mk [Char.ofNat 39] ++ "Aosta!"

/-! ## Fuzzy match suggester (`similarity_score`, functions.py lines 120–153) -/

/-- The two ways `similarity_score` can raise. -/
inductive MatchError where
  /-- `process.extractOne` returns `None` on an empty candidate array, and the
  unpacking on line 144 fails with a `TypeError`; the spec's
  `EmptyCandidateSet`. -/
  | emptyCandidates
  /-- `pd.DataFrame([])` on line 151 has no columns, so `sort_values` raises a
  `KeyError` for the missing score column. -/
  | missingSortColumn
deriving DecidableEq, Repr

/-- One row of the suggestion table built on lines 145–149. -/
structure Row where
  name1 : String
  name2 : String
  score : Nat
deriving DecidableEq, Repr

/-- Modelled from the spec: `rapidfuzz.process.extractOne` (line 144) is
third-party library code.  Per the spec it returns a highest-scoring
candidate, ties resolved to the first candidate in iteration order, and
`None` on an empty candidate list.  The weighted-ratio metric itself is
abstracted as the `scorer` parameter; no claim depends on its values. -/
def extractOneAux (scorer : String → String → Nat) (q : String) :
    String × Nat → List String → String × Nat
  | best, [] => best
  | best, c :: cs =>
    if scorer q c > best.2 then extractOneAux scorer q (c, scorer q c) cs
    else extractOneAux scorer q best cs

def extractOne (scorer : String → String → Nat) (q : String) :
    List String → Option (String × Nat)
  | [] => none
  | c :: cs => some (extractOneAux scorer q (c, scorer q c) cs)

/-- The `for name in unmatched` loop of lines 143–149: one row per unmatched
name, aborting (Python `TypeError`) as soon as `extractOne` yields `None`. -/
def buildRows (scorer : String → String → Nat) (names2 : List String) :
    List String → Option (List Row)
  | [] => some []
  | n :: ns =>
    match extractOne scorer n names2 with
    | none => none
    | some (best, sc) =>
      match buildRows scorer names2 ns with
      | none => none
      | some rows => some (Row.mk n best sc :: rows)

/-- Descending stable insertion by score, modelling the
`sort_values('Similarity score (0-100)', ascending=False)` on line 151. -/
def insertRow (r : Row) : List Row → List Row
  | [] => [r]
  | s :: l => if r.score ≥ s.score then r :: s :: l else s :: insertRow r l

def sortRows : List Row → List Row
  | [] => []
  | r :: l => insertRow r (sortRows l)

/-- `similarity_score` (lines 120–153) applied to the two name columns. -/
def similarity_score (scorer : String → String → Nat) (col1 col2 : List String) :
    Except MatchError (List Row) :=
  let names1 := uniqueList col1
  let names2 := uniqueList col2
  let unmatched := names1.filter (fun n => ! names2.contains n)
  match buildRows scorer names2 unmatched with
  | none => Except.error MatchError.emptyCandidates
  | some rows =>
    if rows = [] then Except.error MatchError.missingSortColumn
    else Except.ok (sortRows rows)

/-- The data model's *valid* lifecycle state of a resolution record: both
flags clear and the code returned unchanged, for a code in the valid set. -/
def validState (valid : List String) (code : String) (r : String × Bool × Bool) : Prop :=
  r.2.1 = false ∧ r.2.2 = false ∧ r.1 = code ∧ code ∈ valid

/-- The *changed* lifecycle state: the `changed` flag of the record is set. -/
def changedState (r : String × Bool × Bool) : Prop := r.2.1 = true

/-- The *suppressed* lifecycle state: the `suppressed` flag is set. -/
def suppressedState (r : String × Bool × Bool) : Prop := r.2.2 = true

/-! ## Supporting lemmas -/

theorem lookupMap_mem_keys {m : List (String × String)} {k v : String}
    (h : lookupMap m k = some v) : k ∈ m.map Prod.fst := by
  induction m with
  | nil => simp [lookupMap] at h
  | cons p ps ih =>
    by_cases hk : p.1 = k
    · simp [hk]
    · simp only [lookupMap, hk, if_false] at h
      exact List.mem_cons_of_mem _ (ih h)

theorem remKeys_cons_lt {m : List (String × String)} {visited : List String}
    {current : String} (hk : current ∈ m.map Prod.fst) (hv : current ∉ visited) :
    remKeys m (current :: visited) < remKeys m visited := by
  unfold remKeys
  rw [List.toFinset_cons, Finset.sdiff_insert]
  exact Finset.card_erase_lt_of_mem
    (Finset.mem_sdiff.mpr ⟨List.mem_toFinset.mpr hk, fun hc => hv (List.mem_toFinset.mp hc)⟩)

theorem remKeys_nil_le (m : List (String × String)) : remKeys m [] ≤ m.length := by
  unfold remKeys
  calc ((m.map Prod.fst).toFinset \ ([] : List String).toFinset).card
      ≤ (m.map Prod.fst).toFinset.card := Finset.card_le_card (Finset.sdiff_subset)
    _ ≤ (m.map Prod.fst).length := List.toFinset_card_le _
    _ = m.length := List.length_map _ _

/-- Adding one unit of fuel beyond `remKeys` does not change the result:
the loop halts before exhausting such fuel. -/
theorem resolveCodeAux_fuel_succ (m : List (String × String)) :
    ∀ fuel visited current, remKeys m visited < fuel →
      resolveCodeAux m (fuel + 1) visited current = resolveCodeAux m fuel visited current := by
  intro fuel
  induction fuel with
  | zero => intro visited current h; exact absurd h (Nat.not_lt_zero _)
  | succ fuel ih =>
    intro visited current h
    show resolveCodeAux m (fuel + 1 + 1) visited current
        = resolveCodeAux m (fuel + 1) visited current
    unfold resolveCodeAux
    cases hl : lookupMap m current with
    | none => rfl
    | some next =>
      by_cases hv : current ∈ visited
      · simp [hv]
      · simp only [hv, if_false]
        apply ih
        have hlt := remKeys_cons_lt (lookupMap_mem_keys hl) hv
        omega

theorem resolveCodeAux_fuel_add (m : List (String × String)) :
    ∀ extra fuel visited current, remKeys m visited < fuel →
      resolveCodeAux m (fuel + extra) visited current
        = resolveCodeAux m fuel visited current := by
  intro extra
  induction extra with
  | zero => intro fuel visited current _; rfl
  | succ extra ih =>
    intro fuel visited current h
    have h1 : remKeys m visited < fuel + extra := Nat.lt_of_lt_of_le h (Nat.le_add_right _ _)
    calc resolveCodeAux m (fuel + (extra + 1)) visited current
        = resolveCodeAux m (fuel + extra + 1) visited current := by
          rw [Nat.add_assoc]
      _ = resolveCodeAux m (fuel + extra) visited current :=
          resolveCodeAux_fuel_succ m _ _ _ h1
      _ = resolveCodeAux m fuel visited current := ih fuel visited current h

/-- The lookup count is bounded by the remaining unvisited keys plus the one
final guard evaluation. -/
theorem resolveCodeLookups_le (m : List (String × String)) :
    ∀ fuel visited current, remKeys m visited < fuel →
      resolveCodeLookups m fuel visited current ≤ remKeys m visited + 1 := by
  intro fuel
  induction fuel with
  | zero => intro visited current h; exact absurd h (Nat.not_lt_zero _)
  | succ fuel ih =>
    intro visited current h
    unfold resolveCodeLookups
    cases hl : lookupMap m current with
    | none => simp
    | some next =>
      by_cases hv : current ∈ visited
      · simp [hv]
      · simp only [hv, if_false]
        have hlt := remKeys_cons_lt (lookupMap_mem_keys hl) hv
        have hih := ih (current :: visited) next (by omega)
        omega

theorem mem_uniqueAux {a : String} :
    ∀ (l seen : List String), a ∈ uniqueAux seen l ↔ a ∈ l ∧ a ∉ seen := by
  intro l
  induction l with
  | nil => intro seen; simp [uniqueAux]
  | cons b l ih =>
    intro seen
    by_cases hb : b ∈ seen
    · rw [uniqueAux, if_pos hb, ih]
      constructor
      · rintro ⟨h1, h2⟩; exact ⟨List.mem_cons_of_mem _ h1, h2⟩
      · rintro ⟨h1, h2⟩
        rcases List.mem_cons.mp h1 with rfl | h1
        · exact absurd hb h2
        · exact ⟨h1, h2⟩
    · rw [uniqueAux, if_neg hb]
      constructor
      · intro h
        rcases List.mem_cons.mp h with rfl | h
        · exact ⟨List.mem_cons_self _ _, hb⟩
        · rcases (ih _).mp h with ⟨h1, h2⟩
          refine ⟨List.mem_cons_of_mem _ h1, fun hs => h2 (List.mem_cons_of_mem _ hs)⟩
      · rintro ⟨h1, h2⟩
        rcases List.mem_cons.mp h1 with rfl | h1
        · exact List.mem_cons_self _ _
        · by_cases hab : a = b
          · subst hab; exact List.mem_cons_self _ _
          · exact List.mem_cons_of_mem _
              ((ih _).mpr ⟨h1, by simp [hab, h2]⟩)

theorem mem_uniqueList {a : String} {l : List String} : a ∈ uniqueList l ↔ a ∈ l := by
  rw [uniqueList, mem_uniqueAux]
  simp

theorem buildRows_name_mem {scorer : String → String → Nat} {names2 : List String} :
    ∀ {l : List String} {rows : List Row}, buildRows scorer names2 l = some rows →
      ∀ r ∈ rows, r.name1 ∈ l := by
  intro l
  induction l with
  | nil =>
    intro rows h r hr
    simp only [buildRows, Option.some.injEq] at h
    subst h
    simp at hr
  | cons n ns ih =>
    intro rows h r hr
    rw [buildRows] at h
    cases he : extractOne scorer n names2 with
    | none => rw [he] at h; cases h
    | some p =>
      rw [he] at h
      cases hb : buildRows scorer names2 ns with
      | none => rw [hb] at h; cases h
      | some rest =>
        rw [hb] at h
        cases p with
        | mk best sc =>
          simp only [Option.some.injEq] at h
          subst h
          rcases List.mem_cons.mp hr with rfl | hr
          · exact List.mem_cons_self _ _
          · exact List.mem_cons_of_mem _ (ih hb r hr)

theorem mem_insertRow {r x : Row} : ∀ {l : List Row}, r ∈ insertRow x l ↔ r = x ∨ r ∈ l := by
  intro l
  induction l with
  | nil => simp [insertRow]
  | cons s l ih =>
    rw [insertRow]
    by_cases hs : x.score ≥ s.score
    · simp [hs, List.mem_cons]
    · simp only [hs, if_false, List.mem_cons, ih]
      tauto

theorem mem_sortRows {r : Row} : ∀ {l : List Row}, r ∈ sortRows l ↔ r ∈ l := by
  intro l
  induction l with
  | nil => simp [sortRows]
  | cons s l ih => rw [sortRows, mem_insertRow]; simp [ih]

/-! ## Claims about the identifier resolver -/

/-- C1: chain resolution terminates for every identifier and every
supersession map — granting the loop any fuel beyond `|supersessionMap| + 1`
never changes its result — and it performs at most `|supersessionMap| + 1`
map lookups; in particular, on the cyclic map `{X ↦ Y, Y ↦ X}` with an empty
valid set, resolving `"X"` terminates and is classified suppressed. -/
theorem resolver_terminates_with_bounded_lookups :
    (∀ (m : List (String × String)) (code : String) (extra : Nat),
      resolveCodeAux m (m.length + 1 + extra) [] code = resolve_code m code)
    ∧ (∀ (m : List (String × String)) (code : String),
      resolve_code_lookups m code ≤ m.length + 1)
    ∧ resolveOne [("X", "Y"), ("Y", "X")] [] "X" = ("X", false, true) := by
  refine ⟨?_, ?_, by decide⟩
  · intro m code extra
    have h : remKeys m [] < m.length + 1 := Nat.lt_succ_of_le (remKeys_nil_le m)
    exact resolveCodeAux_fuel_add m extra (m.length + 1) [] code h
  · intro m code
    have h : remKeys m [] < m.length + 1 := Nat.lt_succ_of_le (remKeys_nil_le m)
    have hb := resolveCodeLookups_le m (m.length + 1) [] code h
    have h0 := remKeys_nil_le m
    unfold resolve_code_lookups
    omega

/-- C2: a code outside the valid set whose chain terminus differs from it is
recorded as `(terminus, changed := true, suppressed := false)`, whatever the
valid set — the terminus's own membership in the valid set is never
consulted. -/
theorem resolver_changed_skips_validity_check
    (m : List (String × String)) (valid : List String) (code : String)
    (h1 : code ∉ valid) (h2 : resolve_code m code ≠ code) :
    resolveOne m valid code = (resolve_code m code, true, false) := by
  simp [resolveOne, h1, h2]

/-- Witness for C2: `"A"` is not valid, its chain ends at `"B"`, and `"B"` is
itself not in the (empty) valid set, yet the record is `changed`. -/
theorem resolver_changed_skips_validity_check_witness :
    resolveOne [("A", "B")] [] "A" = (resolve_code [("A", "B")] "A", true, false) :=
  resolver_changed_skips_validity_check [("A", "B")] [] "A" (by decide) (by decide)

/-- C3: a code already in the valid set is recorded as
`(code, changed := false, suppressed := false)`, even when the code also
appears as a key of the supersession map. -/
theorem resolver_valid_code_unchanged
    (m : List (String × String)) (valid : List String) (code : String)
    (h : code ∈ valid) :
    resolveOne m valid code = (code, false, false) := by
  simp [resolveOne, h]

/-- Witness for C3: `"A"` is valid and also a key of the map, and resolution
leaves it untouched. -/
theorem resolver_valid_code_unchanged_witness :
    resolveOne [("A", "B")] ["A"] "A" = ("A", false, false) :=
  resolver_valid_code_unchanged [("A", "B")] ["A"] "A" (by decide)

/-- C4: a resolution record never has `changed` and `suppressed` set
simultaneously, and exactly one of the three lifecycle states — valid,
changed, suppressed — holds for every input identifier. -/
theorem resolver_exactly_one_state
    (m : List (String × String)) (valid : List String) (code : String) :
    ¬ (changedState (resolveOne m valid code) ∧ suppressedState (resolveOne m valid code))
    ∧ ((validState valid code (resolveOne m valid code)
          ∧ ¬ changedState (resolveOne m valid code)
          ∧ ¬ suppressedState (resolveOne m valid code))
      ∨ (¬ validState valid code (resolveOne m valid code)
          ∧ changedState (resolveOne m valid code)
          ∧ ¬ suppressedState (resolveOne m valid code))
      ∨ (¬ validState valid code (resolveOne m valid code)
          ∧ ¬ changedState (resolveOne m valid code)
          ∧ suppressedState (resolveOne m valid code))) := by
  by_cases h : code ∈ valid
  · simp [resolveOne, h, validState, changedState, suppressedState]
  · by_cases h2 : resolve_code m code = code
    · simp [resolveOne, h, h2, validState, changedState, suppressedState]
    · simp [resolveOne, h, h2, validState, changedState, suppressedState]

/-! ## Claims about the fuzzy match suggester -/

/-- C5 counterexample: an empty target collection is not the only failure
mode.  With the well-formed, non-empty targets `["b"]` the operation still
fails (every source name is matched, so the empty suggestion table cannot be
sorted); and when both collections are empty the failure is the
missing-sort-column error, not the empty-candidate-set one. -/
theorem similarity_nonempty_targets_can_fail :
    (["b"] : List String) ≠ []
    ∧ similarity_score (fun _ _ => 0) ["b"] ["b"]
        = Except.error MatchError.missingSortColumn
    ∧ similarity_score (fun _ _ => 0) [] []
        = Except.error MatchError.missingSortColumn :=
  ⟨by decide, rfl, rfl⟩

/-- C5 amended: with an empty target collection `similarity_score` always
fails — with the empty-candidate-set failure when at least one deduplicated
source name exists, and with the missing-sort-column failure when the source
collection deduplicates to nothing. -/
theorem similarity_empty_targets_always_fails
    (scorer : String → String → Nat) (l1 : List String) :
    similarity_score scorer l1 []
      = Except.error (if uniqueList l1 = [] then MatchError.missingSortColumn
          else MatchError.emptyCandidates) := by
  unfold similarity_score
  cases hu : uniqueList l1 with
  | nil => simp [hu, uniqueList, uniqueAux, buildRows]
  | cons n ns =>
    simp [hu, uniqueList, uniqueAux, buildRows, extractOne, List.filter]

/-- C6: a source name appearing verbatim among the targets never appears as
the source of a produced suggestion. -/
theorem similarity_excludes_verbatim_matches
    (scorer : String → String → Nat) (l1 l2 : List String) (x : String)
    (rows : List Row) (hok : similarity_score scorer l1 l2 = Except.ok rows)
    (hx : x ∈ l2) : ∀ r ∈ rows, r.name1 ≠ x := by
  intro r hr
  simp only [similarity_score] at hok
  cases hb : buildRows scorer (uniqueList l2)
      ((uniqueList l1).filter (fun n => ! (uniqueList l2).contains n)) with
  | none => rw [hb] at hok; cases hok
  | some rows0 =>
    rw [hb] at hok
    dsimp only at hok
    by_cases hnil : rows0 = []
    · rw [if_pos hnil] at hok; cases hok
    · rw [if_neg hnil] at hok
      have hrows : rows = sortRows rows0 := by
        cases hok
        rfl
      subst hrows
      have hr0 : r ∈ rows0 := mem_sortRows.mp hr
      have hname := buildRows_name_mem hb r hr0
      have hfilter := (List.mem_filter.mp hname).2
      intro hcontra
      rw [hcontra] at hfilter
      have hx2 : (uniqueList l2).contains x = true := by
        simp [mem_uniqueList, hx]
      rw [hx2] at hfilter
      cases hfilter

/-- Witness for C6: with sources `["a","b"]` and targets `["a","c"]` the
single suggestion concerns `"b"`, never the verbatim-matched `"a"`. -/
theorem similarity_excludes_verbatim_matches_witness :
    (Row.mk "b" "a" 0).name1 ≠ "a" :=
  similarity_excludes_verbatim_matches (fun _ _ => 0) ["a", "b"] ["a", "c"] "a"
    [Row.mk "b" "a" 0] rfl (by decide) (Row.mk "b" "a" 0) (by decide)

/-- C10: with non-empty targets and every unique source name present verbatim
among the targets, `similarity_score` raises the missing-sort-column failure
(the empty suggestion table has no score column to sort on) instead of
returning an empty suggestion sequence. -/
theorem similarity_all_matched_raises
    (scorer : String → String → Nat) (l1 l2 : List String)
    (_h2 : l2 ≠ []) (hall : ∀ n ∈ l1, n ∈ l2) :
    similarity_score scorer l1 l2 = Except.error MatchError.missingSortColumn := by
  simp only [similarity_score]
  have hu : (uniqueList l1).filter (fun n => ! (uniqueList l2).contains n) = [] := by
    rw [List.filter_eq_nil_iff]
    intro n hn
    have hmem : n ∈ l2 := hall n (mem_uniqueList.mp hn)
    simp [mem_uniqueList, hmem]
  rw [hu]
  simp [buildRows]

/-- Witness for C10: both collections are `["a"]` — non-empty targets, every
source name matched — and the operation raises. -/
theorem similarity_all_matched_raises_witness :
    similarity_score (fun _ _ => 1) ["a"] ["a"]
      = Except.error MatchError.missingSortColumn :=
  similarity_all_matched_raises (fun _ _ => 1) ["a"] ["a"] (by decide)
    (by intro n hn; exact hn)

/-! ## Supporting lemmas for the canonicalizer -/

theorem toNat_ofNat_of_lt {n : Nat} (h : n < 55296) : (Char.ofNat n).toNat = n := by
  have h2 : n.isValidChar := Or.inl h
  simp only [Char.ofNat, dif_pos h2, Char.ofNatAux, Char.toNat, UInt32.toNat]
  rfl

theorem unidecodeTable_ascii : ∀ p ∈ unidecodeTable, ∀ c ∈ p.2, c.toNat < 128 := by
  decide

theorem unidecodeChar_ascii (c : Char) : ∀ d ∈ unidecodeChar c, d.toNat < 128 := by
  intro d hd
  unfold unidecodeChar at hd
  by_cases h : c.toNat < 128
  · rw [if_pos h] at hd
    rcases List.mem_singleton.mp hd with rfl
    exact h
  · rw [if_neg h] at hd
    cases hf : unidecodeTable.find? (fun p => p.1 == c.toNat) with
    | none => rw [hf] at hd; cases hd
    | some p =>
      rw [hf] at hd
      exact unidecodeTable_ascii p (List.mem_of_find?_eq_some hf) d hd

theorem pyUnidecode_ascii {l : List Char} : ∀ c ∈ pyUnidecode l, c.toNat < 128 := by
  intro c hc
  rw [pyUnidecode, List.mem_flatMap] at hc
  obtain ⟨a, _, hmem⟩ := hc
  exact unidecodeChar_ascii a c hmem

theorem toLower_ascii {c : Char} (h : c.toNat < 128) : (Char.toLower c).toNat < 128 := by
  simp only [Char.toLower]
  by_cases hu : c.toNat ≥ 65 ∧ c.toNat ≤ 90
  · rw [if_pos hu, toNat_ofNat_of_lt (by omega)]
    omega
  · rw [if_neg hu]
    exact h

theorem toLower_not_upper (c : Char) :
    ¬ (65 ≤ (Char.toLower c).toNat ∧ (Char.toLower c).toNat ≤ 90) := by
  simp only [Char.toLower]
  by_cases hu : c.toNat ≥ 65 ∧ c.toNat ≤ 90
  · rw [if_pos hu, toNat_ofNat_of_lt (by omega)]
    omega
  · rw [if_neg hu]
    exact hu

theorem toLower_eq_self {c : Char} (h : ¬ (65 ≤ c.toNat ∧ c.toNat ≤ 90)) :
    Char.toLower c = c := by
  simp only [Char.toLower]
  exact if_neg h

theorem pyStrip_subset {l : List Char} : ∀ c ∈ pyStrip l, c ∈ l := by
  intro c hc
  rw [pyStrip, List.mem_reverse] at hc
  have h1 : c ∈ (l.dropWhile isPyWhitespace).reverse :=
    (List.dropWhile_sublist _).subset hc
  rw [List.mem_reverse] at h1
  exact (List.dropWhile_sublist _).subset h1

theorem removePunct_subset {l : List Char} : ∀ c ∈ removePunct l, c ∈ l := by
  intro c hc
  exact (List.mem_filter.mp hc).1

theorem removePunct_no_punct {l : List Char} : ∀ c ∈ removePunct l, isPyPunct c = false := by
  intro c hc
  have h := (List.mem_filter.mp hc).2
  simpa using h

theorem pyUnidecode_eq_self {l : List Char} (h : ∀ c ∈ l, c.toNat < 128) :
    pyUnidecode l = l := by
  induction l with
  | nil => rfl
  | cons c l ih =>
    rw [pyUnidecode, List.flatMap_cons]
    have hc : unidecodeChar c = [c] := by
      rw [unidecodeChar, if_pos (h c (List.mem_cons_self _ _))]
    rw [hc]
    have ht : l.flatMap unidecodeChar = l :=
      ih (fun d hd => h d (List.mem_cons_of_mem _ hd))
    rw [ht]
    rfl

theorem pyLower_eq_self {l : List Char} (h : ∀ c ∈ l, ¬ (65 ≤ c.toNat ∧ c.toNat ≤ 90)) :
    pyLower l = l := by
  induction l with
  | nil => rfl
  | cons c l ih =>
    rw [pyLower, List.map_cons, toLower_eq_self (h c (List.mem_cons_self _ _))]
    have ht : pyLower l = l := ih (fun d hd => h d (List.mem_cons_of_mem _ hd))
    rw [pyLower] at ht
    rw [ht]

theorem removePunct_eq_self {l : List Char} (h : ∀ c ∈ l, isPyPunct c = false) :
    removePunct l = l := by
  rw [removePunct, List.filter_eq_self]
  intro c hc
  rw [h c hc]
  rfl

/-! ## Claims about the name canonicalizer -/

/-- C7 counterexample: canonicalization is not idempotent.  On `"! a"` the
first pass strips nothing (the string starts with punctuation, not
whitespace) and then deletes `!`, leaving `" a"` with a freshly exposed
leading space; the second pass strips that space. -/
theorem canonicalize_not_idempotent :
    normalize_name (some (normalize_name (some "! a"))) ≠ normalize_name (some "! a") := by
  decide

/-- C7 amended: a second canonicalization pass only trims the leading and
trailing whitespace that punctuation removal can re-expose — so
`canonicalize ∘ canonicalize = strip ∘ canonicalize`, and idempotence holds
exactly when the canonical form has no such residual edge whitespace. -/
theorem canonicalize_twice_eq_strip (x : Option String) :
    normalize_name (some (normalize_name x))
      = String.mk (pyStrip (normalize_name x).data) := by
  cases x with
  | none => rfl
  | some s =>
    show normalize_name (some (String.mk (removePunct (pyStrip (pyLower (pyUnidecode s.data))))))
      = String.mk (pyStrip (removePunct (pyStrip (pyLower (pyUnidecode s.data)))))
    have hA : ∀ c ∈ removePunct (pyStrip (pyLower (pyUnidecode s.data))), c.toNat < 128 := by
      intro c hc
      have h1 := pyStrip_subset c (removePunct_subset c hc)
      rw [pyLower] at h1
      obtain ⟨d, hd, rfl⟩ := List.mem_map.mp h1
      exact toLower_ascii (pyUnidecode_ascii d hd)
    have hU : ∀ c ∈ removePunct (pyStrip (pyLower (pyUnidecode s.data))),
        ¬ (65 ≤ c.toNat ∧ c.toNat ≤ 90) := by
      intro c hc
      have h1 := pyStrip_subset c (removePunct_subset c hc)
      rw [pyLower] at h1
      obtain ⟨d, _, rfl⟩ := List.mem_map.mp h1
      exact toLower_not_upper d
    have hP := removePunct_no_punct
      (l := pyStrip (pyLower (pyUnidecode s.data)))
    show String.mk (removePunct (pyStrip (pyLower (pyUnidecode
        (removePunct (pyStrip (pyLower (pyUnidecode s.data))))))))
      = String.mk (pyStrip (removePunct (pyStrip (pyLower (pyUnidecode s.data)))))
    rw [pyUnidecode_eq_self hA, pyLower_eq_self hU,
      removePunct_eq_self (fun c hc => hP c (pyStrip_subset c hc))]

/-- C8: canonicalization is total — a null/missing input and the empty string
both canonicalize to the empty string, and every input produces a defined
output. -/
theorem canonicalize_total :
    normalize_name none = "" ∧ normalize_name (some "") = ""
    ∧ ∀ s : Option String, ∃ t : String, normalize_name s = t :=
  ⟨rfl, rfl, fun s => ⟨normalize_name s, rfl⟩⟩

/-- C9: canonicalization performs accent stripping, then case folding, then
whitespace trimming, then punctuation removal, in exactly that order; in
particular the spec's example `"Città d'Aosta!"` canonicalizes to
`"citta daosta"`. -/
theorem canonicalize_order_and_example :
    (∀ s : String, normalize_name (some s)
        = String.mk (removePunct (pyStrip (pyLower (pyUnidecode s.data)))))
    ∧ normalize_name (some cittaInput) = "citta daosta" :=
  ⟨fun _ => rfl, by decide⟩

end Housing
